import Mathlib

/-!
Verification of the participant/story assignment service of the
"continuous VLM-assisted privacy awareness" study repository.

The development shallowly embeds the stateless HTTP handlers of the
repository over an explicit key-value-store state:

* `AssignV2` — the current assignment allocator (`part_001`, second
  document: the handler that loads every capacity record, sorts the
  candidates and performs a single guarded increment + guarded put).
* `Legacy` — the older allocator (`lambda_function/soups26-vlm-assign.mjs`)
  that iterates story × mode pairs and attempts an atomic increment
  guarded by `assigned_count < max_assignments` on each.
* `Stage` — the guarded stage update of `soups26-vlm-prestudy.mjs` and the
  unconditional stage endpoint of `part_003`.
* `Clip` — the clip-annotation recorder of `part_002` (first document).
* `Prestudy` — answer validation of `soups26-vlm-prestudy.mjs`.
* `StatusH` — the resume-clip computation of `soups26-vlm-status.mjs`.

Modelling conventions: DynamoDB tables become Lean lists of typed
records; a conditional write is a guarded functional update; JavaScript
numbers carrying Likert scores become rationals (so that non-integral
inputs are representable); JavaScript string truthiness (empty string is
falsy) is modelled by `truthyStr`; `localeCompare` is modelled as the
code-point lexicographic order on strings.  Handlers run sequentially:
each invocation reads and writes one store snapshot, except where a
definition takes separate read/write snapshots to expose the behaviour
at a conditional-write guard failure.
-/

namespace Study

/-- JavaScript string truthiness: `s || null` yields `null` for a missing
or empty string.  Used wherever the source tests a string with `!x` or
`x || y`. -/
def truthyStr : Option String → Option String
  | some s => if s = "" then none else some s
  | none => none

/-- JavaScript `a || b` on two possibly-missing strings (first truthy
value, else `none`). -/
def jsOr (a b : Option String) : Option String :=
  match truthyStr a with
  | some s => some s
  | none => truthyStr b

/-- Whitespace test of `String.prototype.trim` (the characters relevant
to this code base). -/
def isWS (c : Char) : Bool :=
  c == ' ' || c == '\t' || c == '\n' || c == '\r'

/-- `String.prototype.trim`, modelled over the character list: drop
leading and trailing whitespace. -/
def jsTrim (s : String) : String :=
  ⟨((s.data.dropWhile isWS).reverse.dropWhile isWS).reverse⟩

/-- A capacity record (`pk = "soups26_vlm_assignment_story"` item): one
per (story, mode) pair, carrying the current claim count and the maximum
allowed claims.  Mirrors the fields read by the allocator
(`storyId`, `mode`, `assignedCount`, `maxAssignments`). -/
structure CapRecord where
  storyId : String
  mode : String
  assignedCount : Nat
  maxAssignments : Nat
deriving Repr, DecidableEq

/-- A participant assignment record
(`pk = "soups26_vlm_assignment_participant"` item).  `story_id` and
`mode` are optional because the allocator tolerates records missing
those attributes (the "reallocating" branch of the fast path). -/
structure AssignRecord where
  participantId : String
  story_id : Option String
  mode : Option String
  stage : Option Int
  finished : Bool
deriving Repr, DecidableEq

/-- The mutable store shared by all allocator invocations: the capacity
records and the participant assignment records. -/
structure AssignState where
  caps : List CapRecord
  assigns : List AssignRecord
deriving Repr, DecidableEq

/-- Code-point lexicographic order on strings, the model of
`localeCompare` in the allocator's comparator.  (Defined over
`String.data` so that it evaluates by kernel reduction.) -/
def strLt (a b : String) : Prop :=
  List.Lex (· < ·) a.data b.data

instance : DecidableRel strLt := fun a b => by
  unfold strLt; infer_instance

/-- Reflexive closure of `strLt`. -/
def strLe (a b : String) : Prop :=
  strLt a b ∨ a = b

instance : DecidableRel strLe := fun a b => by
  unfold strLe; infer_instance

theorem string_data_inj {a b : String} (h : a.data = b.data) : a = b := by
  cases a; cases b
  exact congrArg String.mk h

theorem strLt_trichotomy (a b : String) : strLt a b ∨ a = b ∨ strLt b a := by
  have := @IsTrichotomous.trichotomous (List Char) (List.Lex (· < ·)) _ a.data b.data
  rcases this with h | h | h
  · exact Or.inl h
  · exact Or.inr (Or.inl (string_data_inj h))
  · exact Or.inr (Or.inr h)

theorem strLt_trans {a b c : String} (h1 : strLt a b) (h2 : strLt b c) :
    strLt a c :=
  @IsTrans.trans (List Char) (List.Lex (· < ·)) _ _ _ _ h1 h2

theorem strLe_refl (a : String) : strLe a a := Or.inr rfl

theorem strLe_trans {a b c : String} (h1 : strLe a b) (h2 : strLe b c) :
    strLe a c := by
  rcases h1 with h1 | rfl
  · rcases h2 with h2 | rfl
    · exact Or.inl (strLt_trans h1 h2)
    · exact Or.inl h1
  · exact h2

theorem strLe_total (a b : String) : strLe a b ∨ strLe b a := by
  rcases strLt_trichotomy a b with h | h | h
  · exact Or.inl (Or.inl h)
  · exact Or.inl (Or.inr h)
  · exact Or.inr (Or.inl h)

/-- The comparator of the current allocator
(`storyRecords.slice().sort(...)`): ascending `assignedCount`, ties
broken by `storyId` then by `mode` (`localeCompare` modelled as the
lexicographic string order `strLt`). -/
def recLE (a b : CapRecord) : Prop :=
  a.assignedCount < b.assignedCount ∨
    (a.assignedCount = b.assignedCount ∧
      (strLt a.storyId b.storyId ∨
        (a.storyId = b.storyId ∧ strLe a.mode b.mode)))

instance : DecidableRel recLE := fun a b => by
  unfold recLE; infer_instance

theorem recLE_refl (a : CapRecord) : recLE a a :=
  Or.inr ⟨rfl, Or.inr ⟨rfl, strLe_refl _⟩⟩

instance : IsTotal CapRecord recLE := ⟨by
  intro a b
  unfold recLE
  rcases lt_trichotomy a.assignedCount b.assignedCount with h | h | h
  · exact Or.inl (Or.inl h)
  · rcases strLt_trichotomy a.storyId b.storyId with hs | hs | hs
    · exact Or.inl (Or.inr ⟨h, Or.inl hs⟩)
    · rcases strLe_total a.mode b.mode with hm | hm
      · exact Or.inl (Or.inr ⟨h, Or.inr ⟨hs, hm⟩⟩)
      · exact Or.inr (Or.inr ⟨h.symm, Or.inr ⟨hs.symm, hm⟩⟩)
    · exact Or.inr (Or.inr ⟨h.symm, Or.inl hs⟩)
  · exact Or.inr (Or.inl h)⟩

instance : IsTrans CapRecord recLE := ⟨by
  intro a b c hab hbc
  unfold recLE at *
  rcases hab with h1 | ⟨e1, h1⟩
  · rcases hbc with h2 | ⟨e2, _⟩
    · exact Or.inl (h1.trans h2)
    · exact Or.inl (e2 ▸ h1)
  · rcases hbc with h2 | ⟨e2, h2⟩
    · exact Or.inl (lt_of_le_of_lt (le_of_eq e1) h2)
    · refine Or.inr ⟨e1.trans e2, ?_⟩
      rcases h1 with hs1 | ⟨es1, hm1⟩
      · rcases h2 with hs2 | ⟨es2, _⟩
        · exact Or.inl (strLt_trans hs1 hs2)
        · exact Or.inl (es2 ▸ hs1)
      · rcases h2 with hs2 | ⟨es2, hm2⟩
        · exact Or.inl (es1 ▸ hs2)
        · exact Or.inr ⟨es1.trans es2, strLe_trans hm1 hm2⟩⟩

/-- The sorted candidate list of the current allocator
(`storyRecords.slice().sort(comparator)`). -/
def sortRecords (l : List CapRecord) : List CapRecord :=
  List.insertionSort recLE l

theorem mem_sortRecords {l : List CapRecord} {r : CapRecord} :
    r ∈ sortRecords l ↔ r ∈ l :=
  (List.perm_insertionSort recLE l).mem_iff

theorem sortRecords_sorted (l : List CapRecord) :
    List.Sorted recLE (sortRecords l) :=
  List.sorted_insertionSort recLE l

/-- The chosen candidate of the current allocator:
`available = sorted.filter(r => r.assignedCount < r.maxAssignments)`,
`chosen = available.length > 0 ? available[0] : sorted[0]`. -/
def chooseCandidate (l : List CapRecord) : Option CapRecord :=
  match (sortRecords l).filter
      (fun r => decide (r.assignedCount < r.maxAssignments)) with
  | c :: _ => some c
  | [] => (sortRecords l).head?

theorem sortRecords_ne_nil {l : List CapRecord} (h : l ≠ []) :
    sortRecords l ≠ [] := by
  intro hnil
  have hlen := (List.perm_insertionSort recLE l).length_eq
  rw [show List.insertionSort recLE l = sortRecords l from rfl, hnil] at hlen
  exact h (List.eq_nil_of_length_eq_zero hlen.symm)

theorem chooseCandidate_mem {l : List CapRecord} {c : CapRecord}
    (h : chooseCandidate l = some c) : c ∈ l := by
  unfold chooseCandidate at h
  rcases hF : (sortRecords l).filter
      (fun r => decide (r.assignedCount < r.maxAssignments)) with _ | ⟨d, rest⟩
  · rw [hF] at h
    rcases hS : sortRecords l with _ | ⟨e, tl⟩
    · rw [hS] at h; simp at h
    · rw [hS] at h
      simp at h
      rw [h] at hS
      have : c ∈ sortRecords l := by rw [hS]; exact List.mem_cons_self _ _
      exact mem_sortRecords.mp this
  · rw [hF] at h
    simp at h
    rw [h] at hF
    have : c ∈ (sortRecords l).filter
        (fun r => decide (r.assignedCount < r.maxAssignments)) := by
      rw [hF]; exact List.mem_cons_self _ _
    exact mem_sortRecords.mp (List.mem_of_mem_filter this)

theorem chooseCandidate_isSome {l : List CapRecord} (h : l ≠ []) :
    ∃ c, chooseCandidate l = some c := by
  unfold chooseCandidate
  rcases hF : (sortRecords l).filter
      (fun r => decide (r.assignedCount < r.maxAssignments)) with _ | ⟨d, rest⟩
  · rw [hF]
    rcases hS : sortRecords l with _ | ⟨e, tl⟩
    · exact absurd hS (sortRecords_ne_nil h)
    · exact ⟨e, rfl⟩
  · rw [hF]
    exact ⟨d, rfl⟩

/-- When some candidate is under capacity, the chosen candidate is under
capacity and minimal (w.r.t. the sort order) among the under-capacity
candidates. -/
theorem chooseCandidate_underCap {l : List CapRecord} {c : CapRecord}
    (h : chooseCandidate l = some c)
    (hex : ∃ r ∈ l, r.assignedCount < r.maxAssignments) :
    c.assignedCount < c.maxAssignments ∧
      ∀ r ∈ l, r.assignedCount < r.maxAssignments → recLE c r := by
  unfold chooseCandidate at h
  rcases hF : (sortRecords l).filter
      (fun r => decide (r.assignedCount < r.maxAssignments)) with _ | ⟨d, rest⟩
  · obtain ⟨r, hr, hru⟩ := hex
    have : r ∈ (sortRecords l).filter
        (fun r => decide (r.assignedCount < r.maxAssignments)) :=
      List.mem_filter.mpr ⟨mem_sortRecords.mpr hr, by simpa using hru⟩
    rw [hF] at this
    simp at this
  · rw [hF] at h
    simp at h
    rw [h] at hF
    have hsf : List.Sorted recLE ((sortRecords l).filter
        (fun r => decide (r.assignedCount < r.maxAssignments))) :=
      List.Pairwise.filter _ (sortRecords_sorted l)
    rw [hF] at hsf
    have hcmem : c ∈ (sortRecords l).filter
        (fun r => decide (r.assignedCount < r.maxAssignments)) := by
      rw [hF]; exact List.mem_cons_self _ _
    have hcu : c.assignedCount < c.maxAssignments := by
      have := (List.mem_filter.mp hcmem).2
      simpa using this
    refine ⟨hcu, ?_⟩
    intro r hr hru
    have : r ∈ (sortRecords l).filter
        (fun r => decide (r.assignedCount < r.maxAssignments)) :=
      List.mem_filter.mpr ⟨mem_sortRecords.mpr hr, by simpa using hru⟩
    rw [hF] at this
    rcases List.mem_cons.mp this with rfl | hmem
    · exact recLE_refl _
    · exact List.rel_of_sorted_cons hsf r hmem

/-- When every candidate is at capacity, the chosen candidate is minimal
(w.r.t. the sort order) among all candidates. -/
theorem chooseCandidate_allFull {l : List CapRecord} {c : CapRecord}
    (h : chooseCandidate l = some c)
    (hfull : ∀ r ∈ l, r.maxAssignments ≤ r.assignedCount) :
    ∀ r ∈ l, recLE c r := by
  unfold chooseCandidate at h
  rcases hF : (sortRecords l).filter
      (fun r => decide (r.assignedCount < r.maxAssignments)) with _ | ⟨d, rest⟩
  · rw [hF] at h
    rcases hS : sortRecords l with _ | ⟨e, tl⟩
    · rw [hS] at h; simp at h
    · rw [hS] at h
      simp at h
      rw [h] at hS
      intro r hr
      have hrs : r ∈ sortRecords l := mem_sortRecords.mpr hr
      rw [hS] at hrs
      rcases List.mem_cons.mp hrs with rfl | hmem
      · exact recLE_refl _
      · have hs := sortRecords_sorted l
        rw [hS] at hs
        exact List.rel_of_sorted_cons hs r hmem
  · have : d ∈ (sortRecords l).filter
        (fun r => decide (r.assignedCount < r.maxAssignments)) := by
      rw [hF]; exact List.mem_cons_self _ _
    have hdu := (List.mem_filter.mp this).2
    have hdmem := mem_sortRecords.mp (List.mem_of_mem_filter this)
    simp at hdu
    exact absurd hdu (not_lt.mpr (hfull d hdmem))


/-- The allocator response surface (`respond(status, body)`), restricted
to the shapes the claims are about.  `assigned` is the 200 body carrying
(storyId, mode, reused); `noStoryItems` is the 409 "No story assignment
items found"; `noTasks` is the 409 "No available tasks for this study";
`serverError` is the 500 path. -/
inductive Response where
  | assigned (storyId : String) (mode : String) (reused : Bool)
  | badRequest
  | noStoryItems
  | noTasks
  | serverError
deriving Repr, DecidableEq

/-- `GetItemCommand` on the participant key: the (unique) assignment
record of a participant, if any. -/
def findAssign (assigns : List AssignRecord) (pid : String) :
    Option AssignRecord :=
  assigns.find? (fun r => r.participantId == pid)

/-- The fast-path well-formedness test of the current allocator:
`existing.Item.story_id?.S` and `existing.Item.mode?.S` must both be
truthy (`if (existingStoryId && existingMode)`). -/
def wellFormedPair (rec : AssignRecord) : Option (String × String) :=
  match truthyStr rec.story_id, truthyStr rec.mode with
  | some st, some m => some (st, m)
  | _, _ => none

/-- `attribute_exists(pk)` on a capacity-record key: does the store hold
a record for this (story, mode)? -/
def hasKey (caps : List CapRecord) (st m : String) : Bool :=
  caps.any (fun r => r.storyId == st && r.mode == m)

/-- `UpdateItemCommand` writing `assigned_count = :newCount` on the
(story, mode) key: replace the claim count of the matching record(s),
leaving every other field and record unchanged. -/
def bump (caps : List CapRecord) (st m : String) (n : Nat) : List CapRecord :=
  caps.map (fun r =>
    if r.storyId = st ∧ r.mode = m then { r with assignedCount := n } else r)

/-- The allocation path of the current allocator (`part_001`, second
document, after the fast path): choose the best candidate from the
records read (`readCaps`), then run the conditional increment and the
conditional put against the store `s`.  `readCaps` and `s.caps` are
distinct parameters so that the behaviour at a guard failure of the
`attribute_exists(pk)` condition is expressible; a plain sequential call
passes `s.caps` for both (see `allocate`). -/
def allocPath (readCaps : List CapRecord) (s : AssignState) (pid : String) :
    Response × AssignState :=
  if readCaps = [] then (Response.noStoryItems, s)
  else
    match chooseCandidate readCaps with
    | none => (Response.noTasks, s)
    | some c =>
      if hasKey s.caps c.storyId c.mode then
        -- UpdateItemCommand succeeded: assigned_count := chosen.assignedCount + 1
        match findAssign s.assigns pid with
        | some _ =>
          -- PutItemCommand guarded by attribute_not_exists(sk) fails:
          -- ConditionalCheckFailedException is caught and the handler
          -- falls through to the final 409 response, keeping the increment.
          (Response.noTasks,
           { caps := bump s.caps c.storyId c.mode (c.assignedCount + 1),
             assigns := s.assigns })
        | none =>
          (Response.assigned c.storyId c.mode false,
           { caps := bump s.caps c.storyId c.mode (c.assignedCount + 1),
             assigns := s.assigns ++
               [{ participantId := pid, story_id := some c.storyId,
                  mode := some c.mode, stage := some 0, finished := false }] })
      else
        -- UpdateItemCommand guard failed: caught, lastError is the
        -- conditional-check failure, final 409 response, store unchanged.
        (Response.noTasks, s)

/-- The current allocator handler (`part_001`, second document): 400 on a
missing participant id, fast path returning the existing well-formed
assignment with `reused = true`, otherwise the allocation path. -/
def allocateCore (readCaps : List CapRecord) (s : AssignState) (pid : String) :
    Response × AssignState :=
  if pid = "" then (Response.badRequest, s)
  else
    match (findAssign s.assigns pid).bind wellFormedPair with
    | some (st, m) => (Response.assigned st m true, s)
    | none => allocPath readCaps s pid

/-- A sequential `allocate` call: the records read in step 2 are the
capacity records of the same store snapshot the writes hit. -/
def allocate (s : AssignState) (pid : String) : Response × AssignState :=
  allocateCore s.caps s pid

/-- A sequence of sequential `allocate` calls. -/
def runAllocate (s : AssignState) (ps : List String) : AssignState :=
  ps.foldl (fun t p => (allocate t p).2) s

/-- The (story, mode) primary keys of the capacity records. -/
def capKeys (caps : List CapRecord) : List (String × String) :=
  caps.map (fun r => (r.storyId, r.mode))

/-- DynamoDB key uniqueness: no two capacity records share a
(story, mode) key. -/
def keysDistinct (caps : List CapRecord) : Prop :=
  (capKeys caps).Nodup

instance (caps : List CapRecord) : Decidable (keysDistinct caps) := by
  unfold keysDistinct; infer_instance

/-- Invariant of claim C1: every claim count is within its maximum. -/
def countsOK (caps : List CapRecord) : Prop :=
  ∀ r ∈ caps, r.assignedCount ≤ r.maxAssignments

instance (caps : List CapRecord) : Decidable (countsOK caps) := by
  unfold countsOK; infer_instance

/-- Every capacity record is at capacity. -/
def allFull (caps : List CapRecord) : Prop :=
  ∀ r ∈ caps, r.maxAssignments ≤ r.assignedCount

instance (caps : List CapRecord) : Decidable (allFull caps) := by
  unfold allFull; infer_instance

theorem keysDistinct_eq {caps : List CapRecord} (hk : keysDistinct caps)
    {r c : CapRecord} (hr : r ∈ caps) (hc : c ∈ caps)
    (h1 : r.storyId = c.storyId) (h2 : r.mode = c.mode) : r = c := by
  have hinj := List.inj_on_of_nodup_map (f := fun r : CapRecord => (r.storyId, r.mode)) hk
  have : (r.storyId, r.mode) = (c.storyId, c.mode) := by rw [h1, h2]
  rcases r with ⟨rs, rm, ra, rx⟩
  rcases c with ⟨cs, cm, ca, cx⟩
  simp only at h1 h2
  subst h1; subst h2
  have := hinj hr hc this
  exact this

theorem capKeys_bump (caps : List CapRecord) (st m : String) (n : Nat) :
    capKeys (bump caps st m n) = capKeys caps := by
  unfold capKeys bump
  rw [List.map_map]
  apply List.map_congr_left
  intro r _
  by_cases h : r.storyId = st ∧ r.mode = m <;> simp [h]

theorem keysDistinct_bump {caps : List CapRecord} (hk : keysDistinct caps)
    (st m : String) (n : Nat) : keysDistinct (bump caps st m n) := by
  unfold keysDistinct
  rw [capKeys_bump]
  exact hk

theorem hasKey_of_mem {caps : List CapRecord} {c : CapRecord} (hc : c ∈ caps) :
    hasKey caps c.storyId c.mode = true := by
  unfold hasKey
  rw [List.any_eq_true]
  exact ⟨c, hc, by simp⟩

/-- Effect of a successful guarded increment on the C1 invariant: if the
chosen record is strictly under capacity, writing `count + 1` keeps every
record within its maximum. -/
theorem bump_countsOK {caps : List CapRecord} (hk : keysDistinct caps)
    (h0 : countsOK caps) {c : CapRecord} (hc : c ∈ caps)
    (hu : c.assignedCount < c.maxAssignments) :
    countsOK (bump caps c.storyId c.mode (c.assignedCount + 1)) := by
  intro r' hr'
  unfold bump at hr'
  rw [List.mem_map] at hr'
  obtain ⟨r, hr, heq⟩ := hr'
  by_cases h : r.storyId = c.storyId ∧ r.mode = c.mode
  · have hrc : r = c := keysDistinct_eq hk hr hc h.1 h.2
    rw [if_pos h] at heq
    subst hrc
    rw [← heq]
    simpa using hu
  · rw [if_neg h] at heq
    rw [← heq]
    exact h0 r hr

/-- Case analysis on the capacity records after one sequential
`allocate` call: either untouched, or the chosen candidate's count is
set to its read value plus one. -/
theorem allocate_caps_cases (s : AssignState) (pid : String) :
    (allocate s pid).2.caps = s.caps ∨
    ∃ c, chooseCandidate s.caps = some c ∧ c ∈ s.caps ∧
      (allocate s pid).2.caps = bump s.caps c.storyId c.mode (c.assignedCount + 1) := by
  unfold allocate allocateCore
  split
  · exact Or.inl rfl
  split
  · exact Or.inl rfl
  unfold allocPath
  split
  · exact Or.inl rfl
  split
  · exact Or.inl rfl
  next c hC =>
    have hcm : c ∈ s.caps := chooseCandidate_mem hC
    split
    · split
      · exact Or.inr ⟨c, hC, hcm, rfl⟩
      · exact Or.inr ⟨c, hC, hcm, rfl⟩
    · next hno => exact absurd (hasKey_of_mem hcm) hno

/-- Single-step preservation of the C1 invariant: a sequential
`allocate` call from a store where not every record is at capacity keeps
every claim count within its maximum. -/
theorem allocate_countsOK (s : AssignState) (pid : String)
    (hk : keysDistinct s.caps) (h0 : countsOK s.caps)
    (hnf : ¬ allFull s.caps) :
    countsOK (allocate s pid).2.caps := by
  rcases allocate_caps_cases s pid with h | ⟨c, hC, hcm, h⟩
  · rw [h]; exact h0
  · rw [h]
    have hex : ∃ r ∈ s.caps, r.assignedCount < r.maxAssignments := by
      by_contra hno
      push_neg at hno
      exact hnf (fun r hr => hno r hr)
    have := chooseCandidate_underCap hC hex
    exact bump_countsOK hk h0 hcm this.1

theorem allocate_keysDistinct (s : AssignState) (pid : String)
    (hk : keysDistinct s.caps) :
    keysDistinct (allocate s pid).2.caps := by
  rcases allocate_caps_cases s pid with h | ⟨c, _, _, h⟩
  · rw [h]; exact hk
  · rw [h]; exact keysDistinct_bump hk _ _ _


namespace Legacy

/-- The atomic guarded increment of the legacy allocator
(`soups26-vlm-assign.mjs`): `UpdateItemCommand` with
`SET assigned_count = assigned_count + :inc` and
`ConditionExpression "assigned_count < max_assignments"`.  Returns the
updated capacity records on success, `none` when the condition fails
(record absent or at capacity). -/
def tryIncrement (caps : List CapRecord) (st m : String) :
    Option (List CapRecord) :=
  match caps.find? (fun r => r.storyId == st && r.mode == m) with
  | none => none
  | some r =>
    if r.assignedCount < r.maxAssignments then
      some (bump caps st m (r.assignedCount + 1))
    else none

/-- The candidate loop of the legacy allocator: the nested
`for storyId of STORY_IDS / for mode of MODES` loop.  Each iteration
attempts the guarded increment; a `ConditionalCheckFailedException`
continues with the next pair.  When the increment succeeds but the
guarded `PutItemCommand` of the participant record fails (record already
exists), the `catch` also continues with the next pair — keeping the
increment. -/
def allocLoop (pid : String) :
    List (String × String) → AssignState → Response × AssignState
  | [], s => (Response.noTasks, s)
  | (st, m) :: rest, s =>
    match tryIncrement s.caps st m with
    | none => allocLoop pid rest s
    | some caps' =>
      if (findAssign s.assigns pid).isSome then
        allocLoop pid rest { caps := caps', assigns := s.assigns }
      else
        (Response.assigned st m false,
         { caps := caps',
           assigns := s.assigns ++
             [{ participantId := pid, story_id := some st, mode := some m,
                stage := none, finished := false }] })

/-- The legacy handler: 400 on a missing participant id; fast path
returning an existing record's story and mode (reading the attributes
unguardedly — a record missing them makes the handler throw, caught as a
500); otherwise the candidate loop over the configured story × mode
pairs. -/
def handler (pairs : List (String × String)) (s : AssignState)
    (pid : String) : Response × AssignState :=
  if pid = "" then (Response.badRequest, s)
  else
    match findAssign s.assigns pid with
    | some rec =>
      match rec.story_id, rec.mode with
      | some st, some m => (Response.assigned st m true, s)
      | _, _ => (Response.serverError, s)
    | none => allocLoop pid pairs s

/-- A sequence of sequential legacy `allocate` calls against a fixed
configured candidate list. -/
def runHandler (pairs : List (String × String)) (s : AssignState)
    (ps : List String) : AssignState :=
  ps.foldl (fun t p => (handler pairs t p).2) s

theorem tryIncrement_countsOK {caps : List CapRecord} {st m : String}
    {caps' : List CapRecord} (h : tryIncrement caps st m = some caps')
    (hk : keysDistinct caps) (h0 : countsOK caps) :
    countsOK caps' ∧ keysDistinct caps' := by
  unfold tryIncrement at h
  rcases hf : caps.find? (fun r => r.storyId == st && r.mode == m) with _ | r
  · rw [hf] at h; simp at h
  · rw [hf] at h
    have h' : (if r.assignedCount < r.maxAssignments then
        some (bump caps st m (r.assignedCount + 1)) else none) = some caps' := h
    by_cases hu : r.assignedCount < r.maxAssignments
    · rw [if_pos hu] at h'
      simp at h' 
      have hmem : r ∈ caps := List.mem_of_find?_eq_some hf
      have hpred := List.find?_some hf
      simp at hpred
      obtain ⟨hst, hm⟩ := hpred
      subst hst; subst hm
      rw [← h']
      exact ⟨bump_countsOK hk h0 hmem hu, keysDistinct_bump hk _ _ _⟩
    · rw [if_neg hu] at h'; simp at h' 

theorem allocLoop_countsOK (pid : String)
    (pairs : List (String × String)) (s : AssignState)
    (hk : keysDistinct s.caps) (h0 : countsOK s.caps) :
    countsOK (allocLoop pid pairs s).2.caps ∧
      keysDistinct (allocLoop pid pairs s).2.caps := by
  induction pairs generalizing s with
  | nil => exact ⟨h0, hk⟩
  | cons p rest ih =>
    obtain ⟨st, m⟩ := p
    unfold allocLoop
    rcases ht : tryIncrement s.caps st m with _ | caps'
    · exact ih s hk h0
    · obtain ⟨h0', hk'⟩ := tryIncrement_countsOK ht hk h0
      by_cases hex : (findAssign s.assigns pid).isSome
      · simp only [hex, if_true]
        exact ih { caps := caps', assigns := s.assigns } hk' h0'
      · simp only [hex, if_false]
        exact ⟨h0', hk'⟩

theorem handler_countsOK (pairs : List (String × String)) (s : AssignState)
    (pid : String) (hk : keysDistinct s.caps) (h0 : countsOK s.caps) :
    countsOK (handler pairs s pid).2.caps ∧
      keysDistinct (handler pairs s pid).2.caps := by
  unfold handler
  split
  · exact ⟨h0, hk⟩
  split
  · split
    · exact ⟨h0, hk⟩
    · exact ⟨h0, hk⟩
  · exact allocLoop_countsOK pid pairs s hk h0

/-- The legacy allocator's value-guarded increment keeps every claim
count within its maximum across any sequence of calls, unconditionally. -/
theorem runHandler_countsOK (pairs : List (String × String))
    (s : AssignState) (ps : List String)
    (hk : keysDistinct s.caps) (h0 : countsOK s.caps) :
    countsOK (runHandler pairs s ps).caps := by
  induction ps generalizing s with
  | nil => exact h0
  | cons p rest ih =>
    have hstep := handler_countsOK pairs s p hk h0
    exact ih (handler pairs s p).2 hstep.2 hstep.1

end Legacy


theorem allocateCore_to_path {readCaps : List CapRecord} {s : AssignState}
    {pid : String} (hpid : pid ≠ "")
    (hfast : (findAssign s.assigns pid).bind wellFormedPair = none) :
    allocateCore readCaps s pid = allocPath readCaps s pid := by
  unfold allocateCore
  rw [if_neg hpid, hfast]

theorem chooseCandidate_nil : chooseCandidate [] = none := rfl

theorem allocPath_success {readCaps : List CapRecord} {s : AssignState}
    {pid : String} {c : CapRecord} (hne : readCaps ≠ [])
    (hC : chooseCandidate readCaps = some c)
    (hkey : hasKey s.caps c.storyId c.mode = true)
    (hfresh : findAssign s.assigns pid = none) :
    allocPath readCaps s pid =
      (Response.assigned c.storyId c.mode false,
       { caps := bump s.caps c.storyId c.mode (c.assignedCount + 1),
         assigns := s.assigns ++
           [{ participantId := pid, story_id := some c.storyId,
              mode := some c.mode, stage := some 0, finished := false }] }) := by
  unfold allocPath
  split
  · next h => exact absurd h hne
  split
  · next h => exact absurd (hC.symm.trans h) (by simp)
  next c' hC' =>
    rw [hC] at hC'
    have hcc : c' = c := (Option.some.inj hC').symm
    subst hcc
    split
    · split
      · next _ h => exact absurd (hfresh.symm.trans h) (by simp)
      · rfl
    · next h => exact absurd hkey h

theorem allocPath_put_conflict {readCaps : List CapRecord} {s : AssignState}
    {pid : String} {c : CapRecord} {rec : AssignRecord} (hne : readCaps ≠ [])
    (hC : chooseCandidate readCaps = some c)
    (hkey : hasKey s.caps c.storyId c.mode = true)
    (hfind : findAssign s.assigns pid = some rec) :
    allocPath readCaps s pid =
      (Response.noTasks,
       { caps := bump s.caps c.storyId c.mode (c.assignedCount + 1),
         assigns := s.assigns }) := by
  unfold allocPath
  split
  · next h => exact absurd h hne
  split
  · next h => exact absurd (hC.symm.trans h) (by simp)
  next c' hC' =>
    rw [hC] at hC'
    have hcc : c' = c := (Option.some.inj hC').symm
    subst hcc
    split
    · split
      · rfl
      · next h => exact absurd (hfind.symm.trans h) (by simp)
    · next h => exact absurd hkey h

theorem allocPath_guard_fail {readCaps : List CapRecord} {s : AssignState}
    {pid : String} {c : CapRecord} (hC : chooseCandidate readCaps = some c)
    (hkey : hasKey s.caps c.storyId c.mode = false) :
    allocPath readCaps s pid = (Response.noTasks, s) := by
  have hne : readCaps ≠ [] := by
    intro h
    rw [h, chooseCandidate_nil] at hC
    simp at hC
  unfold allocPath
  split
  · next h => exact absurd h hne
  split
  · next h => exact absurd (hC.symm.trans h) (by simp)
  next c' hC' =>
    rw [hC] at hC'
    have hcc : c' = c := (Option.some.inj hC').symm
    subst hcc
    split
    · next h => exact absurd (hkey.symm.trans h) (by simp)
    · rfl

/-- Helper for claim C1: over any sequence of sequential allocate calls,
as long as the store never reaches full saturation before a call, every
claim count stays within its maximum. -/
theorem runAllocate_countsOK (ps : List String) :
    ∀ s : AssignState, keysDistinct s.caps → countsOK s.caps →
      (∀ n, n < ps.length → ¬ allFull (runAllocate s (ps.take n)).caps) →
      countsOK (runAllocate s ps).caps := by
  induction ps with
  | nil => intro s _ h0 _; exact h0
  | cons p rest ih =>
    intro s hk h0 hfull
    have hnotfull : ¬ allFull s.caps := hfull 0 (Nat.succ_pos _)
    have h1 : countsOK (allocate s p).2.caps := allocate_countsOK s p hk h0 hnotfull
    have hk1 : keysDistinct (allocate s p).2.caps := allocate_keysDistinct s p hk
    show countsOK (runAllocate (allocate s p).2 rest).caps
    apply ih (allocate s p).2 hk1 h1
    intro n hn
    have := hfull (n + 1) (Nat.succ_lt_succ hn)
    rw [List.take_succ_cons] at this
    exact this

/-- C1: over any sequence of sequential allocate calls with distinct
participants, every capacity record's claim count stays within
`max_assignments` as long as not all records are at capacity before each
call (current allocator); and the legacy allocator's value-guarded
conditional increment (`assigned_count < max_assignments`) keeps every
claim count within its maximum unconditionally, across any sequence of
calls. -/
theorem claim_C1_capacity_invariant :
    (∀ (s : AssignState) (ps : List String),
        keysDistinct s.caps → countsOK s.caps → ps.Nodup →
        (∀ n, n < ps.length → ¬ allFull (runAllocate s (ps.take n)).caps) →
        countsOK (runAllocate s ps).caps) ∧
    (∀ (pairs : List (String × String)) (s : AssignState) (ps : List String),
        keysDistinct s.caps → countsOK s.caps →
        countsOK (Legacy.runHandler pairs s ps).caps) :=
  ⟨fun s ps hk h0 _ hfull => runAllocate_countsOK ps s hk h0 hfull,
   fun pairs s ps hk h0 => Legacy.runHandler_countsOK pairs s ps hk h0⟩

def c1state : AssignState :=
  { caps := [⟨"story_01", "human", 0, 1⟩, ⟨"story_01", "vlm", 0, 1⟩],
    assigns := [] }

theorem claim_C1_witness :
    countsOK (runAllocate c1state ["p1", "p2"]).caps ∧
      countsOK (Legacy.runHandler [("story_01", "human")] c1state ["p3"]).caps :=
  ⟨claim_C1_capacity_invariant.1 c1state ["p1", "p2"] (by decide) (by decide)
      (by decide) (by decide),
   claim_C1_capacity_invariant.2 [("story_01", "human")] c1state ["p3"]
      (by decide) (by decide)⟩

/-- C2: a participant who already has a well-formed assignment record
(story and mode both populated) gets exactly that (story, mode) back
with `reused = true`, and the store — in particular every claim count —
is left untouched, so the capacity increment happens at most once across
repeated allocate calls. -/
theorem claim_C2_idempotent (s : AssignState) (pid : String)
    (rec : AssignRecord) (st m : String) (hpid : pid ≠ "")
    (hfind : findAssign s.assigns pid = some rec)
    (hst : truthyStr rec.story_id = some st)
    (hm : truthyStr rec.mode = some m) :
    allocate s pid = (Response.assigned st m true, s) := by
  unfold allocate allocateCore
  rw [if_neg hpid, hfind]
  simp [wellFormedPair, hst, hm]

def c2state : AssignState :=
  { caps := [⟨"story_01", "human", 1, 2⟩],
    assigns := [⟨"p1", some "story_01", some "human", some 0, false⟩] }

theorem claim_C2_witness :
    allocate c2state "p1" = (Response.assigned "story_01" "human" true, c2state) :=
  claim_C2_idempotent c2state "p1"
    ⟨"p1", some "story_01", some "human", some 0, false⟩ "story_01" "human"
    (by decide) (by decide) (by decide) (by decide)

/-- C3: the chosen candidate is a loaded record that is least in the
deterministic order `recLE` (ascending claim count, ties broken by story
id then mode id, lexicographically), restricted to the under-capacity
records when any exist; with every record at capacity it is least among
all records.  Being a function of the loaded records, the choice is the
same for any two allocators that read the same counts. -/
theorem claim_C3_deterministic_choice (l : List CapRecord) (c : CapRecord)
    (h : chooseCandidate l = some c) :
    c ∈ l ∧
      ((∃ r ∈ l, r.assignedCount < r.maxAssignments) →
        c.assignedCount < c.maxAssignments ∧
          ∀ r ∈ l, r.assignedCount < r.maxAssignments → recLE c r) ∧
      ((∀ r ∈ l, r.maxAssignments ≤ r.assignedCount) → ∀ r ∈ l, recLE c r) :=
  ⟨chooseCandidate_mem h,
   fun hex => chooseCandidate_underCap h hex,
   fun hfull => chooseCandidate_allFull h hfull⟩

def c3recs : List CapRecord :=
  [⟨"story_02", "human", 1, 5⟩, ⟨"story_01", "human", 1, 5⟩,
   ⟨"story_01", "vlm", 0, 0⟩]

theorem claim_C3_witness :
    (⟨"story_01", "human", 1, 5⟩ : CapRecord) ∈ c3recs ∧
      (⟨"story_01", "human", 1, 5⟩ : CapRecord).assignedCount <
        (⟨"story_01", "human", 1, 5⟩ : CapRecord).maxAssignments ∧
      recLE ⟨"story_01", "human", 1, 5⟩ ⟨"story_02", "human", 1, 5⟩ := by
  have h := claim_C3_deterministic_choice c3recs ⟨"story_01", "human", 1, 5⟩
    (by decide)
  have hu := h.2.1 ⟨⟨"story_01", "human", 1, 5⟩, by decide, by decide⟩
  exact ⟨h.1, hu.1, hu.2 ⟨"story_02", "human", 1, 5⟩ (by decide) (by decide)⟩

/-- C4: when every capacity record is at capacity but at least one
exists, a fresh participant's allocate call does not fail: it assigns
the least-loaded candidate (least in the deterministic order among all
records), bumping its count past its maximum; and conversely an
over-capacity candidate is never chosen while some record is still
under capacity. -/
theorem claim_C4_graceful_fallback (s : AssignState) (pid : String)
    (hpid : pid ≠ "") (hfresh : findAssign s.assigns pid = none)
    (hne : s.caps ≠ []) (hfull : allFull s.caps) :
    (∃ c, chooseCandidate s.caps = some c ∧ c ∈ s.caps ∧
        (∀ r ∈ s.caps, recLE c r) ∧ c.maxAssignments ≤ c.assignedCount ∧
        allocate s pid =
          (Response.assigned c.storyId c.mode false,
           { caps := bump s.caps c.storyId c.mode (c.assignedCount + 1),
             assigns := s.assigns ++
               [{ participantId := pid, story_id := some c.storyId,
                  mode := some c.mode, stage := some 0, finished := false }] })) ∧
      (∀ (t : AssignState) (c' : CapRecord), ¬ allFull t.caps →
        chooseCandidate t.caps = some c' →
        c'.assignedCount < c'.maxAssignments) := by
  constructor
  · obtain ⟨c, hC⟩ := chooseCandidate_isSome hne
    have hcm := chooseCandidate_mem hC
    have hfast : (findAssign s.assigns pid).bind wellFormedPair = none := by
      rw [hfresh]; rfl
    refine ⟨c, hC, hcm, chooseCandidate_allFull hC hfull, hfull c hcm, ?_⟩
    unfold allocate
    rw [allocateCore_to_path hpid hfast]
    exact allocPath_success hne hC (hasKey_of_mem hcm) hfresh
  · intro t c' hnf hC'
    have hex : ∃ r ∈ t.caps, r.assignedCount < r.maxAssignments := by
      by_contra hno
      push_neg at hno
      exact hnf (fun r hr => hno r hr)
    exact (chooseCandidate_underCap hC' hex).1

def c4state : AssignState :=
  { caps := [⟨"story_01", "human", 2, 1⟩, ⟨"story_01", "vlm", 1, 1⟩],
    assigns := [] }

theorem claim_C4_witness :
    allocate c4state "p1" =
      (Response.assigned "story_01" "vlm" false,
       { caps := [⟨"story_01", "human", 2, 1⟩, ⟨"story_01", "vlm", 2, 1⟩],
         assigns := [⟨"p1", some "story_01", some "vlm", some 0, false⟩] }) := by
  obtain ⟨⟨c, hC, -, -, -, heq⟩, -⟩ :=
    claim_C4_graceful_fallback c4state "p1" (by decide) (by decide)
      (by decide) (by decide)
  have hc : some (⟨"story_01", "vlm", 1, 1⟩ : CapRecord) = some c := by
    rw [← hC]; decide
  injection hc with hc
  subst hc
  exact heq.trans (by decide)

/-- C6 (amended): when the guarded creation of the participant record
fails because a record for the participant already exists (sequentially
triggered by a malformed existing record that misses story or mode), the
allocator does not re-read and return the existing record: it responds
with the 409 no-available-tasks error, leaving the step-3 increment of
the chosen candidate in place as an excess claim and the assignment
records untouched. -/
theorem claim_C6_amended (s : AssignState) (pid : String)
    (rec : AssignRecord) (hpid : pid ≠ "")
    (hfind : findAssign s.assigns pid = some rec)
    (hmal : wellFormedPair rec = none) (hne : s.caps ≠ []) :
    ∃ c, chooseCandidate s.caps = some c ∧ c ∈ s.caps ∧
      allocate s pid =
        (Response.noTasks,
         { caps := bump s.caps c.storyId c.mode (c.assignedCount + 1),
           assigns := s.assigns }) := by
  obtain ⟨c, hC⟩ := chooseCandidate_isSome hne
  have hcm := chooseCandidate_mem hC
  have hfast : (findAssign s.assigns pid).bind wellFormedPair = none := by
    rw [hfind]
    show wellFormedPair rec = none
    exact hmal
  refine ⟨c, hC, hcm, ?_⟩
  unfold allocate
  rw [allocateCore_to_path hpid hfast]
  exact allocPath_put_conflict hne hC (hasKey_of_mem hcm) hfind

def c6state : AssignState :=
  { caps := [⟨"story_01", "human", 0, 2⟩],
    assigns := [⟨"p1", none, none, none, false⟩] }

theorem claim_C6_counterexample :
    (allocate c6state "p1").1 = Response.noTasks ∧
      (allocate c6state "p1").2.caps = [⟨"story_01", "human", 1, 2⟩] ∧
      (allocate c6state "p1").2.assigns = c6state.assigns := by decide

theorem claim_C6_witness :
    ∃ c, chooseCandidate c6state.caps = some c ∧ c ∈ c6state.caps ∧
      allocate c6state "p1" =
        (Response.noTasks,
         { caps := bump c6state.caps c.storyId c.mode (c.assignedCount + 1),
           assigns := c6state.assigns }) :=
  claim_C6_amended c6state "p1" ⟨"p1", none, none, none, false⟩ (by decide)
    (by decide) (by decide) (by decide)

/-- C7 (amended): when the conditional increment of the chosen capacity
record fails its `attribute_exists(pk)` guard, the allocator makes no
further attempt: it reports the 409 no-available-tasks condition
immediately, leaving the store unchanged — it does not retry the next
candidate in the sorted order. -/
theorem claim_C7_amended (readCaps : List CapRecord) (s : AssignState)
    (pid : String) (c : CapRecord) (hpid : pid ≠ "")
    (hfast : (findAssign s.assigns pid).bind wellFormedPair = none)
    (hC : chooseCandidate readCaps = some c)
    (hguard : hasKey s.caps c.storyId c.mode = false) :
    allocateCore readCaps s pid = (Response.noTasks, s) := by
  rw [allocateCore_to_path hpid hfast]
  exact allocPath_guard_fail hC hguard

def c7read : List CapRecord :=
  [⟨"story_01", "human", 0, 2⟩, ⟨"story_02", "human", 0, 2⟩]

def c7state : AssignState :=
  { caps := [⟨"story_02", "human", 0, 2⟩], assigns := [] }

theorem claim_C7_counterexample :
    allocateCore c7read c7state "p1" = (Response.noTasks, c7state) ∧
      chooseCandidate c7read = some ⟨"story_01", "human", 0, 2⟩ ∧
      hasKey c7state.caps "story_01" "human" = false ∧
      (⟨"story_02", "human", 0, 2⟩ : CapRecord) ∈ c7read ∧
      hasKey c7state.caps "story_02" "human" = true ∧
      (⟨"story_02", "human", 0, 2⟩ : CapRecord).assignedCount <
        (⟨"story_02", "human", 0, 2⟩ : CapRecord).maxAssignments := by decide

theorem claim_C7_witness :
    allocateCore c7read c7state "p9" = (Response.noTasks, c7state) :=
  claim_C7_amended c7read c7state "p9" ⟨"story_01", "human", 0, 2⟩
    (by decide) (by decide) (by decide) (by decide)


namespace Stage

/-- The guarded stage update of `soups26-vlm-prestudy.mjs`:
`UpdateItemCommand` with `SET stage = :stage` and
`ConditionExpression "attribute_not_exists(stage) OR stage < :stage"`
(the source instantiates the target at 1; here it is a parameter).
When the condition fails the `ConditionalCheckFailedException` is
swallowed and the stored stage is unchanged. -/
def condStageUpdate (cur : Option Int) (tgt : Int) : Option Int :=
  match cur with
  | none => some tgt
  | some c => if c < tgt then some tgt else some c

/-- Responses of the stage endpoint of `part_003`. -/
inductive StageResponse where
  | ok (stage : Int)
  | badRequest
deriving Repr, DecidableEq

/-- The stage endpoint of `part_003`: after validating
`0 ≤ stage ≤ 3` it runs `UpdateItemCommand` with
`SET stage = :s` and NO condition expression — the requested stage is
stored unconditionally.  Returns (response, stored stage). -/
def stageEndpoint (cur : Option Int) (pid : String) (req : Option Int) :
    StageResponse × Option Int :=
  if pid = "" then (StageResponse.badRequest, cur)
  else
    match req with
    | none => (StageResponse.badRequest, cur)
    | some v =>
      if v < 0 ∨ 3 < v then (StageResponse.badRequest, cur)
      else (StageResponse.ok v, some v)

end Stage

/-- C5 (corrected): the guarded stage update of the survey handler is a
monotone max-merge — it never regresses a stored stage, and in
particular advancing to 1 and then requesting 0 through it leaves the
stage at 1 — but the dedicated stage endpoint (`part_003`) writes the
requested stage unconditionally, so requesting stage 0 there after
advancing to 1 regresses the stored stage to 0. -/
theorem claim_C5_amended :
    (∀ (cur : Option Int) (tgt : Int),
        Stage.condStageUpdate cur tgt = some (max (cur.getD tgt) tgt)) ∧
      Stage.condStageUpdate (Stage.condStageUpdate none 1) 0 = some 1 ∧
      (Stage.stageEndpoint (some 1) "p1" (some 0)).2 = some 0 := by
  refine ⟨?_, by decide, by decide⟩
  intro cur tgt
  cases cur with
  | none => simp [Stage.condStageUpdate]
  | some c =>
    simp only [Stage.condStageUpdate, Option.getD]
    split
    · next h => rw [max_eq_right (le_of_lt h)]
    · next h => rw [max_eq_left (le_of_not_lt h)]

/-- C5 counterexample: the stage endpoint of `part_003` sets a
participant's stage from 1 back to 0, while the claim requires every
stage-setting operation to leave it at 1. -/
theorem claim_C5_counterexample :
    Stage.condStageUpdate none 1 = some 1 ∧
      (Stage.stageEndpoint (some 1) "p1" (some 0)).2 = some 0 ∧
      (Stage.stageEndpoint (some 1) "p1" (some 0)).2 ≠ some 1 := by decide

namespace Clip

/-- `normalizeLikert(raw, min = -3, max = 3)` of `part_002`: `Number(raw)`
must be finite (`none` models a non-numeric / NaN input) and within the
bounds; the value itself is returned unchanged.  Scores are rationals:
JavaScript numbers, so non-integral values are representable. -/
def normalizeLikert (raw : Option ℚ) : Option ℚ :=
  match raw with
  | none => none
  | some n => if n < -3 ∨ 3 < n then none else some n

/-- `stringList(raw)` of `part_002`: keep the non-empty trimmed strings
(entry options model `String(v || "")` on non-string members). -/
def stringList (raw : Option (List (Option String))) : List String :=
  match raw with
  | none => []
  | some l => (l.map (fun v => jsTrim (v.getD ""))).filter
      (fun s => decide (0 < s.data.length))

/-- Input shape of one AI-suggestion response.  Optional passthrough
attributes that never affect validity (`time_sec`, `information_types`,
`severity`, `confidence`, `notes`, `detected_visual`) are not modelled. -/
structure RawAiResponse where
  det_id : Option String
  privacy_threat_score : Option ℚ
  share_willingness_score : Option ℚ
  ai_memory_comfort_score : Option ℚ
  trust_ai_score : Option ℚ
deriving Repr, DecidableEq

/-- A validated AI-suggestion response as persisted. -/
structure AiResponse where
  det_id : String
  privacy_threat_score : ℚ
  share_willingness_score : ℚ
  ai_memory_comfort_score : ℚ
  trust_ai_score : ℚ
deriving Repr, DecidableEq

/-- `normalizeAiResponse(raw)` of `part_002`: requires a truthy `det_id`
and four in-bounds Likert scores, else the entry is dropped. -/
def normalizeAiResponse (raw : Option RawAiResponse) : Option AiResponse :=
  match raw with
  | none => none
  | some raw =>
    match truthyStr raw.det_id with
    | none => none
    | some det =>
      match normalizeLikert raw.privacy_threat_score,
        normalizeLikert raw.share_willingness_score,
        normalizeLikert raw.ai_memory_comfort_score,
        normalizeLikert raw.trust_ai_score with
      | some threat, some share, some comfort, some trust =>
        some ⟨det, threat, share, comfort, trust⟩
      | _, _, _, _ => none

/-- Input shape of one participant-authored finding.  The optional
passthrough attributes `time_sec` and `other_text` are not modelled. -/
structure RawFinding where
  finding_id : Option String
  id : Option String
  categories : Option (List (Option String))
  privacy_threat_score : Option ℚ
  share_willingness_score : Option ℚ
  ai_memory_comfort_score : Option ℚ
  description : Option String
deriving Repr, DecidableEq

/-- A validated participant finding as persisted. -/
structure Finding where
  finding_id : String
  categories : List String
  privacy_threat_score : ℚ
  share_willingness_score : ℚ
  ai_memory_comfort_score : ℚ
  description : Option String
deriving Repr, DecidableEq

/-- `normalizeFinding(raw)` of `part_002`: requires a truthy
`finding_id || id`, a non-empty category list, three in-bounds Likert
scores, and a non-empty trimmed description unless the categories
include "none". -/
def normalizeFinding (raw : Option RawFinding) : Option Finding :=
  match raw with
  | none => none
  | some raw =>
    match jsOr raw.finding_id raw.id with
    | none => none
    | some findingId =>
      match stringList raw.categories with
      | [] => none
      | cat :: cats =>
        match normalizeLikert raw.privacy_threat_score,
          normalizeLikert raw.share_willingness_score,
          normalizeLikert raw.ai_memory_comfort_score with
        | some threat, some share, some comfort =>
          if ¬ (cat :: cats).contains "none" ∧
              (jsTrim (raw.description.getD "")).data.length = 0 then none
          else
            some ⟨findingId, cat :: cats, threat, share, comfort,
              if 0 < (jsTrim (raw.description.getD "")).data.length then
                some (jsTrim (raw.description.getD "")) else none⟩
        | _, _, _ => none

/-- Input shape of one cross-clip response.  Optional passthrough
attributes (`title`, `clips_involved`, `information_types`,
`severity_overall`, `confidence`) are not modelled. -/
structure RawCross where
  threat_id : Option String
  id : Option String
  cross_privacy_threat_score : Option ℚ
  cross_more_severe_score : Option ℚ
  cross_ai_memory_comfort_score : Option ℚ
deriving Repr, DecidableEq

/-- A validated cross-clip response as persisted. -/
structure CrossResponse where
  threat_id : String
  cross_privacy_threat_score : ℚ
  cross_more_severe_score : ℚ
  cross_ai_memory_comfort_score : ℚ
deriving Repr, DecidableEq

/-- `normalizeCrossResponse(raw, idx)` of `part_002`: the threat id
defaults to `cross_<idx+1>` (so it is always truthy); the three Likert
scores must be in bounds. -/
def normalizeCrossResponse (raw : Option RawCross) (idx : Nat) :
    Option CrossResponse :=
  match raw with
  | none => none
  | some raw =>
    let threatId := (jsOr raw.threat_id raw.id).getD
      ("cross_" ++ toString (idx + 1))
    match normalizeLikert raw.cross_privacy_threat_score,
      normalizeLikert raw.cross_more_severe_score,
      normalizeLikert raw.cross_ai_memory_comfort_score with
    | some threat, some moreSevere, some comfort =>
      some ⟨threatId, threat, moreSevere, comfort⟩
    | _, _, _ => none

/-- The request body of the clip-annotation handler (modelled fields).
`clipIndex` is `Number(body.clipIndex)` when that is an integer, `none`
otherwise (NaN or fractional). -/
structure ClipRequest where
  participantId : String
  storyId : Option String
  clipIndex : Option Int
  aiResponses : List (Option RawAiResponse)
  participantFindings : List (Option RawFinding)
  crossClipResponses : List (Option RawCross)
  videoWatched : Bool
deriving Repr, DecidableEq

/-- The persisted clip-annotation item (modelled fields). -/
structure ClipItem where
  participant_id : String
  story_id : String
  clip_index : Int
  ai_responses : List AiResponse
  participant_findings : List Finding
  cross_clip_responses : List CrossResponse
  video_watched : Bool
deriving Repr, DecidableEq

/-- The handler response: one of the 400 validation errors, or the 200
body carrying `savedAiResponses` and `savedParticipantFindings`. -/
inductive ClipResponse where
  | badRequest (msg : String)
  | ok (savedAiResponses : Nat) (savedParticipantFindings : Nat)
deriving Repr, DecidableEq

/-- The validated AI responses of a request
(`aiResponsesRaw.map(normalizeAiResponse).filter(Boolean)`). -/
def validAiOf (req : ClipRequest) : List AiResponse :=
  req.aiResponses.filterMap normalizeAiResponse

/-- The validated participant findings of a request. -/
def validFindingsOf (req : ClipRequest) : List Finding :=
  req.participantFindings.filterMap normalizeFinding

/-- The validated cross-clip responses of a request (normalized with
their positional index). -/
def validCrossOf (req : ClipRequest) : List CrossResponse :=
  req.crossClipResponses.enum.filterMap
    (fun p => normalizeCrossResponse p.2 p.1)

/-- The clip-annotation handler of `part_002`: validates the envelope
(participant id, story id, positive integer clip index), drops malformed
entries of the three lists individually, rejects the batch when nothing
validates, and otherwise persists exactly the validated entries and
reports their counts. -/
def clipAnnotate (req : ClipRequest) : ClipResponse × Option ClipItem :=
  if req.participantId = "" then
    (ClipResponse.badRequest "participantId is required", none)
  else
    match truthyStr req.storyId with
    | none => (ClipResponse.badRequest "storyId is required", none)
    | some sid =>
      match req.clipIndex with
      | none =>
        (ClipResponse.badRequest
          "clipIndex must be a positive integer (1-based)", none)
      | some ci =>
        if ci < 1 then
          (ClipResponse.badRequest
            "clipIndex must be a positive integer (1-based)", none)
        else
          if validAiOf req = [] ∧ validFindingsOf req = [] ∧
              validCrossOf req = [] then
            (ClipResponse.badRequest
              "At least one response is required to store clip annotation",
             none)
          else
            (ClipResponse.ok (validAiOf req).length (validFindingsOf req).length,
             some ⟨req.participantId, sid, ci, validAiOf req,
               validFindingsOf req, validCrossOf req, req.videoWatched⟩)

end Clip

theorem clipAnnotate_envelope {req : Clip.ClipRequest} {sid : String}
    {ci : Int} (hpid : req.participantId ≠ "")
    (hsid : truthyStr req.storyId = some sid)
    (hclip : req.clipIndex = some ci) (hci : 1 ≤ ci) :
    Clip.clipAnnotate req =
      if Clip.validAiOf req = [] ∧ Clip.validFindingsOf req = [] ∧
          Clip.validCrossOf req = [] then
        (Clip.ClipResponse.badRequest
          "At least one response is required to store clip annotation", none)
      else
        (Clip.ClipResponse.ok (Clip.validAiOf req).length
          (Clip.validFindingsOf req).length,
         some ⟨req.participantId, sid, ci, Clip.validAiOf req,
           Clip.validFindingsOf req, Clip.validCrossOf req,
           req.videoWatched⟩) := by
  unfold Clip.clipAnnotate
  rw [if_neg hpid]
  split
  · next h => exact absurd (hsid.symm.trans h) (by simp)
  next sid' hsid' =>
    rw [hsid] at hsid'
    injection hsid' with h
    subst h
    split
    · next h => exact absurd (hclip.symm.trans h) (by simp)
    next ci' hci' =>
      rw [hclip] at hci'
      injection hci' with h
      subst h
      rw [if_neg (by omega : ¬ ci < 1)]

/-- C8: with a well-formed envelope, the clip-annotation handler rejects
the batch with the 400 "at least one response" error exactly when no
sub-entry of any of the three lists passes validation; otherwise it
persists exactly the entries that validate and reports saved counts
equal to the numbers of valid entries. -/
theorem claim_C8_partial_batch (req : Clip.ClipRequest) (sid : String)
    (ci : Int) (hpid : req.participantId ≠ "")
    (hsid : truthyStr req.storyId = some sid)
    (hclip : req.clipIndex = some ci) (hci : 1 ≤ ci) :
    ((∀ a ∈ req.aiResponses, Clip.normalizeAiResponse a = none) ∧
        (∀ f ∈ req.participantFindings, Clip.normalizeFinding f = none) ∧
        (∀ p ∈ req.crossClipResponses.enum,
          Clip.normalizeCrossResponse p.2 p.1 = none) ↔
      Clip.clipAnnotate req =
        (Clip.ClipResponse.badRequest
          "At least one response is required to store clip annotation",
         none)) ∧
    (¬ ((∀ a ∈ req.aiResponses, Clip.normalizeAiResponse a = none) ∧
        (∀ f ∈ req.participantFindings, Clip.normalizeFinding f = none) ∧
        (∀ p ∈ req.crossClipResponses.enum,
          Clip.normalizeCrossResponse p.2 p.1 = none)) →
      Clip.clipAnnotate req =
        (Clip.ClipResponse.ok (Clip.validAiOf req).length
          (Clip.validFindingsOf req).length,
         some ⟨req.participantId, sid, ci, Clip.validAiOf req,
           Clip.validFindingsOf req, Clip.validCrossOf req,
           req.videoWatched⟩)) := by
  have hempty :
      ((∀ a ∈ req.aiResponses, Clip.normalizeAiResponse a = none) ∧
        (∀ f ∈ req.participantFindings, Clip.normalizeFinding f = none) ∧
        (∀ p ∈ req.crossClipResponses.enum,
          Clip.normalizeCrossResponse p.2 p.1 = none)) ↔
      (Clip.validAiOf req = [] ∧ Clip.validFindingsOf req = [] ∧
        Clip.validCrossOf req = []) := by
    unfold Clip.validAiOf Clip.validFindingsOf Clip.validCrossOf
    rw [List.filterMap_eq_nil_iff, List.filterMap_eq_nil_iff,
      List.filterMap_eq_nil_iff]
  have heq := clipAnnotate_envelope hpid hsid hclip hci
  constructor
  · rw [hempty, heq]
    constructor
    · intro h
      rw [if_pos h]
    · intro h
      by_cases hcase : Clip.validAiOf req = [] ∧
          Clip.validFindingsOf req = [] ∧ Clip.validCrossOf req = []
      · exact hcase
      · rw [if_neg hcase] at h
        exact absurd h (by simp)
  · rw [hempty, heq]
    intro h
    rw [if_neg h]

def c8request : Clip.ClipRequest :=
  { participantId := "p1", storyId := some "story_01", clipIndex := some 1,
    aiResponses := [],
    participantFindings :=
      [some { finding_id := some "f1", id := none,
              categories := some [some "person"],
              privacy_threat_score := some 1,
              share_willingness_score := some 2,
              ai_memory_comfort_score := some 0,
              description := some "a person appears" },
       some { finding_id := some "f2", id := none,
              categories := some [some "person"],
              privacy_threat_score := some 5,
              share_willingness_score := some 2,
              ai_memory_comfort_score := some 0,
              description := some "out of range score" }],
    crossClipResponses := [], videoWatched := true }

theorem claim_C8_witness :
    (Clip.clipAnnotate c8request).1 = Clip.ClipResponse.ok 0 1 := by
  have h1 : c8request.participantId ≠ "" := by decide
  have h2 : truthyStr c8request.storyId = some "story_01" := by decide
  have h3 : c8request.clipIndex = some 1 := by decide
  have h4 : (1 : Int) ≤ 1 := by decide
  have h5 : ¬ ((∀ a ∈ c8request.aiResponses,
        Clip.normalizeAiResponse a = none) ∧
      (∀ f ∈ c8request.participantFindings,
        Clip.normalizeFinding f = none) ∧
      (∀ p ∈ c8request.crossClipResponses.enum,
        Clip.normalizeCrossResponse p.2 p.1 = none)) := by decide
  have h := (claim_C8_partial_batch c8request "story_01" 1 h1 h2 h3 h4).2 h5
  rw [h]
  decide


namespace Prestudy

/-- Input shape of one pre-study answer (modelled fields).  `score` is
`Number(raw.score)` (`none` models NaN / non-numeric). -/
structure RawAnswer where
  id : Option String
  question : Option String
  score : Option ℚ
  index : Option ℚ
deriving Repr, DecidableEq

/-- A validated pre-study answer as persisted. -/
structure Answer where
  question_id : String
  question : String
  score : ℚ
  index : ℚ
deriving Repr, DecidableEq

/-- `normalizeAnswer(raw, idx)` of `soups26-vlm-prestudy.mjs`: requires
`Number(raw.score)` finite and within [-3, 3]; the question id defaults
to `q<idx+1>`, the question text to ""; the `index` field defaults to
`idx + 1` when `raw.index` is falsy (missing or 0). -/
def normalizeAnswer (raw : Option RawAnswer) (idx : Nat) : Option Answer :=
  match raw with
  | none => none
  | some raw =>
    match raw.score with
    | none => none
    | some n =>
      if n < -3 ∨ 3 < n then none
      else
        some ⟨(truthyStr raw.id).getD ("q" ++ toString (idx + 1)),
          (truthyStr raw.question).getD "", n,
          match raw.index with
          | none => ((idx : ℚ) + 1)
          | some i => if i = 0 then ((idx : ℚ) + 1) else i⟩

end Prestudy

/-- C9 (amended): every Likert score accepted by the clip-annotation
validation (`normalizeLikert`) or the pre-study answer validation lies
within the fixed bounds -3..3, and non-numeric or out-of-bounds scores
are rejected; integrality however is NOT checked — any in-bounds
numeric value, integral or not, is accepted unchanged. -/
theorem claim_C9_amended :
    (∀ (q : Option ℚ) (n : ℚ), Clip.normalizeLikert q = some n →
        q = some n ∧ -3 ≤ n ∧ n ≤ 3) ∧
    (∀ q : ℚ, ¬ (q < -3 ∨ 3 < q) →
        Clip.normalizeLikert (some q) = some q) ∧
    (∀ (raw : Option Prestudy.RawAnswer) (idx : Nat)
        (ans : Prestudy.Answer),
        Prestudy.normalizeAnswer raw idx = some ans →
        -3 ≤ ans.score ∧ ans.score ≤ 3) := by
  refine ⟨?_, ?_, ?_⟩
  · intro q n h
    cases q with
    | none => exact absurd h (by simp [Clip.normalizeLikert])
    | some m =>
      have h' : (if m < -3 ∨ 3 < m then (none : Option ℚ) else some m) =
          some n := h
      by_cases hc : m < -3 ∨ 3 < m
      · rw [if_pos hc] at h'
        exact absurd h' (by simp)
      · rw [if_neg hc] at h'
        injection h' with h''
        subst h''
        push_neg at hc
        exact ⟨rfl, hc.1, hc.2⟩
  · intro q hq
    show (if q < -3 ∨ 3 < q then (none : Option ℚ) else some q) = some q
    rw [if_neg hq]
  · intro raw idx ans h
    cases raw with
    | none => exact absurd h (by simp [Prestudy.normalizeAnswer])
    | some raw =>
      have h0 : (match raw.score with
          | none => (none : Option Prestudy.Answer)
          | some n =>
            if n < -3 ∨ 3 < n then none
            else some ⟨(truthyStr raw.id).getD ("q" ++ toString (idx + 1)),
              (truthyStr raw.question).getD "", n,
              match raw.index with
              | none => ((idx : ℚ) + 1)
              | some i => if i = 0 then ((idx : ℚ) + 1) else i⟩) =
          some ans := h
      rcases hs : raw.score with _ | n
      · rw [hs] at h0
        have h1 : (none : Option Prestudy.Answer) = some ans := h0
        exact absurd h1 (by simp)
      · rw [hs] at h0
        have h1 : (if n < -3 ∨ 3 < n then (none : Option Prestudy.Answer)
            else some ⟨(truthyStr raw.id).getD ("q" ++ toString (idx + 1)),
              (truthyStr raw.question).getD "", n,
              match raw.index with
              | none => ((idx : ℚ) + 1)
              | some i => if i = 0 then ((idx : ℚ) + 1) else i⟩) =
            some ans := h0
        by_cases hc : n < -3 ∨ 3 < n
        · rw [if_pos hc] at h1
          exact absurd h1 (by simp)
        · rw [if_neg hc] at h1
          injection h1 with h2
          push_neg at hc
          rw [← h2]
          exact ⟨hc.1, hc.2⟩

/-- The non-integral rational 3/2 (given by its explicit normal form so
that it evaluates by kernel reduction). -/
def c9half : ℚ := Rat.mk' 3 2 (by decide) (by decide)

/-- C9 counterexample: the validation accepts the non-integral score
3/2 (denominator 2), while the claim requires every accepted score to
be an integer. -/
theorem claim_C9_counterexample :
    Clip.normalizeLikert (some c9half) = some c9half ∧
      Prestudy.normalizeAnswer
          (some ⟨none, none, some c9half, some 1⟩) 0 =
        some ⟨"q1", "", c9half, 1⟩ ∧
      c9half.den = 2 ∧ c9half.den ≠ 1 := by decide

theorem claim_C9_witness :
    (some (2 : ℚ) : Option ℚ) = some 2 ∧ (-3 : ℚ) ≤ 2 ∧ (2 : ℚ) ≤ 3 :=
  claim_C9_amended.1 (some 2) 2 (by decide)

namespace StatusH

/-- One item of the status handler's clip-annotation query result: the
parsed clip index (`none` models an unparsable value) and the
video-watched flag. -/
structure QueryItem where
  clip_index : Option Int
  video_watched : Bool
deriving Repr, DecidableEq

/-- The parsed, filtered clip indices of the saved annotations
(`Number.isFinite(clipIndexVal) && clipIndexVal >= 1`). -/
def validClipIndices (items : List QueryItem) : List Int :=
  items.filterMap (fun it =>
    match it.clip_index with
    | some n => if n < 1 then none else some n
    | none => none)

/-- The `let next = 1; while (savedSet.has(next)) next += 1` loop,
fuel-bounded; fuel `saved.length + 1` always suffices
(`nextFree_spec`). -/
def nextFree (saved : List Int) : Nat → Int → Int
  | 0, n => n
  | fuel + 1, n => if n ∈ saved then nextFree saved fuel (n + 1) else n

/-- `resumeClipIndex` of `soups26-vlm-status.mjs`: `null` when no valid
clip annotation is saved, else the first index ≥ 1 missing from the
saved set. -/
def resumeClipIndex (items : List QueryItem) : Option Int :=
  if validClipIndices items = [] then none
  else some (nextFree (validClipIndices items)
    ((validClipIndices items).length + 1) 1)

theorem nextFree_spec (saved : List Int) :
    ∀ (fuel : Nat) (n : Int),
      (saved.toFinset.filter (fun m => n ≤ m)).card < fuel →
      nextFree saved fuel n ∉ saved ∧ n ≤ nextFree saved fuel n ∧
        ∀ m : Int, n ≤ m → m < nextFree saved fuel n → m ∈ saved := by
  intro fuel
  induction fuel with
  | zero => intro n h; exact absurd h (by omega)
  | succ f ih =>
    intro n hcard
    have heq : nextFree saved (f + 1) n =
        if n ∈ saved then nextFree saved f (n + 1) else n := rfl
    rw [heq]
    by_cases hn : n ∈ saved
    · rw [if_pos hn]
      have hmem : n ∈ saved.toFinset.filter (fun m => n ≤ m) := by
        simp [List.mem_toFinset, hn]
      have hsub : saved.toFinset.filter (fun m => n + 1 ≤ m) =
          (saved.toFinset.filter (fun m => n ≤ m)).erase n := by
        ext m
        simp only [Finset.mem_filter, Finset.mem_erase, List.mem_toFinset]
        constructor
        · rintro ⟨hm, hle⟩
          exact ⟨by omega, hm, by omega⟩
        · rintro ⟨hne, hm, hle⟩
          refine ⟨hm, ?_⟩
          rcases eq_or_lt_of_le hle with h | h
          · exact absurd h.symm hne
          · omega
      have hstep : (saved.toFinset.filter (fun m => n + 1 ≤ m)).card < f := by
        rw [hsub, Finset.card_erase_of_mem hmem]
        have hpos : 0 < (saved.toFinset.filter (fun m => n ≤ m)).card :=
          Finset.card_pos.mpr ⟨n, hmem⟩
        omega
      obtain ⟨h1, h2, h3⟩ := ih (n + 1) hstep
      refine ⟨h1, by omega, ?_⟩
      intro m hm1 hm2
      rcases eq_or_lt_of_le hm1 with h | h
      · exact h ▸ hn
      · exact h3 m (by omega) hm2
    · rw [if_neg hn]
      exact ⟨hn, le_refl n, fun m hm1 hm2 => absurd hm2 (by omega)⟩

end StatusH

/-- C10: for a status query with an assigned story, `resumeClipIndex`
is `null` exactly when no valid clip annotation is saved, and otherwise
it is the smallest integer ≥ 1 not among the saved clip indices — the
first gap, not one past the highest saved clip. -/
theorem claim_C10_resume_gap (items : List StatusH.QueryItem) :
    (StatusH.resumeClipIndex items = none ↔
      StatusH.validClipIndices items = []) ∧
    (∀ r : Int, StatusH.resumeClipIndex items = some r →
      1 ≤ r ∧ r ∉ StatusH.validClipIndices items ∧
        ∀ m : Int, 1 ≤ m → m < r → m ∈ StatusH.validClipIndices items) := by
  constructor
  · unfold StatusH.resumeClipIndex
    by_cases h : StatusH.validClipIndices items = []
    · rw [if_pos h]
      simp [h]
    · rw [if_neg h]
      simp [h]
  · intro r hr
    unfold StatusH.resumeClipIndex at hr
    by_cases h : StatusH.validClipIndices items = []
    · rw [if_pos h] at hr
      exact absurd hr (by simp)
    · rw [if_neg h] at hr
      injection hr with hr
      subst hr
      have hcard : ((StatusH.validClipIndices items).toFinset.filter
          (fun m => (1 : Int) ≤ m)).card <
          (StatusH.validClipIndices items).length + 1 := by
        have h1 := Finset.card_filter_le
          (StatusH.validClipIndices items).toFinset (fun m => (1 : Int) ≤ m)
        have h2 := List.toFinset_card_le (StatusH.validClipIndices items)
        omega
      obtain ⟨h1, h2, h3⟩ := StatusH.nextFree_spec _ _ 1 hcard
      exact ⟨h2, h1, h3⟩

def c10items : List StatusH.QueryItem :=
  [⟨some 1, true⟩, ⟨some 2, false⟩, ⟨some 4, true⟩]

theorem claim_C10_witness :
    StatusH.resumeClipIndex c10items = some 3 ∧
      (3 : Int) ∉ StatusH.validClipIndices c10items ∧
      (1 : Int) ∈ StatusH.validClipIndices c10items ∧
      (2 : Int) ∈ StatusH.validClipIndices c10items := by
  have h := (claim_C10_resume_gap c10items).2 3 (by decide)
  exact ⟨by decide, h.2.1, h.2.2 1 (by decide) (by decide),
    h.2.2 2 (by decide) (by decide)⟩

end Study
